import Mathlib

/-!
Shallow embedding of `qdarkstyle/utils/images.py` (QDarkStyleSheet asset
pipeline) and proofs about it.

Python strings are modelled as `List Char` (`Str`).  Pure helpers of the
source file are translated one to one:

* `fileColorMap`      embeds `_get_file_color_map`   (lines 45-71)
* `svgReplaceColor`   embeds `_create_colored_svg`   (lines 74-85, the pure
                      text transformation; file I/O is out of scope)
* `createImages`      embeds `create_images`         (lines 132-217, with the
                      filesystem and the Qt rasterizer abstracted away: the
                      list of template filenames and the extracted reference
                      list are parameters, produced PNG filenames are
                      collected instead of written)
* `generateQrcContent` embeds `generate_qrc_file`    (lines 220-252, the pure
                      text generation)
* `getRcLinks`        embeds `get_rc_links_from_scss` (lines 255-278, with
                      the file contents as a parameter and the regex search
                      for the default pattern spelled out operationally)
-/

abbrev Str := List Char

/-- Python `s.split(sep)` for a single-character separator `sep`. -/
def splitCh (sep : Char) : Str → List Str
  | [] => [[]]
  | c :: rest =>
    if c = sep then [] :: splitCh sep rest
    else
      match splitCh sep rest with
      | [] => [[c]]
      | h :: t => (c :: h) :: t

/-- Whether `pat` occurs as a contiguous substring of `s` (Python `pat in s`). -/
def containsSub (pat : Str) : Str → Bool
  | [] => pat.isEmpty
  | c :: rest => pat.isPrefixOf (c :: rest) || containsSub pat rest

/-- Fuel-driven worker for `replaceAll`.  The fuel is only a structural
termination device; it never runs out when initialised with the length of
the subject string. -/
def replaceAllAux (pat rep : Str) : Nat → Str → Str
  | _, [] => []
  | 0, s => s
  | fuel + 1, c :: rest =>
    if pat ≠ [] ∧ pat.isPrefixOf (c :: rest) then
      rep ++ replaceAllAux pat rep fuel ((c :: rest).drop pat.length)
    else
      c :: replaceAllAux pat rep fuel rest

/-- Python `s.replace(pat, rep)`: replace every non-overlapping occurrence of
`pat` in `s` by `rep`, scanning left to right. -/
def replaceAll (pat rep s : Str) : Str :=
  replaceAllAux pat rep s.length s

/-- Fuel-driven worker for `splitOnSub`, mirroring `replaceAllAux` branch by
branch. -/
def splitOnSubAux (pat : Str) : Nat → Str → List Str
  | _, [] => [[]]
  | 0, s => [s]
  | fuel + 1, c :: rest =>
    if pat ≠ [] ∧ pat.isPrefixOf (c :: rest) then
      [] :: splitOnSubAux pat fuel ((c :: rest).drop pat.length)
    else
      match splitOnSubAux pat fuel rest with
      | [] => [[c]]
      | h :: t => (c :: h) :: t

/-- Python `s.split(pat)` for a multi-character separator: the pieces of `s`
between the non-overlapping occurrences of `pat`, scanning left to right. -/
def splitOnSub (pat s : Str) : List Str :=
  splitOnSubAux pat s.length s

/-- Python `os.path.basename` for POSIX paths: the part after the last `/`. -/
def pyBasename (s : Str) : Str :=
  (splitCh '/' s).getLastD []

/-- Python `os.path.join(a, b)` for POSIX paths (two components). -/
def pyJoin (a b : Str) : Str :=
  if b.head? = some '/' then b
  else if a = [] ∨ a.getLast? = some '/' then a ++ b
  else a ++ '/' :: b

/-- One insertion into a Python dict literal modelled as an association
list: an existing key is overwritten in place, a new key is appended. -/
def pydictInsert (d : List (Str × Str)) (k : Str) (v : Str) : List (Str × Str) :=
  if k ∈ d.map Prod.fst then d.map fun p => if p.1 = k then (k, v) else p
  else d ++ [(k, v)]

/-- A Python dict literal built from a list of key/value pairs, later
occurrences of a key overwriting earlier ones. -/
def mkDict (l : List (Str × Str)) : List (Str × Str) :=
  l.foldl (fun d p => pydictInsert d p.1 p.2) []

/-- The palette object: the four semantic colors read by
`_get_file_color_map` (duck-typed attribute access in the source). -/
structure Palette where
  COLOR_BACKGROUND_NORMAL : Str
  COLOR_SELECTION_LIGHT : Str
  COLOR_SELECTION_NORMAL : Str
  COLOR_FOREGROUND_DARK : Str
deriving DecidableEq

/-- `IMAGE_BLACKLIST = ['base_palette']` (line 25). -/
def IMAGE_BLACKLIST : List Str := ["base_palette".toList]

/-- Embeds `_get_file_color_map(fname, palette)` (lines 45-71).
`name, ext = fname.split('.')` raises `ValueError` unless the split has
exactly two parts, modelled as `Except.error`.  The inner dict literal is
built with Python dict semantics via `mkDict`; the `for f, file_colors ...
break` loop over the singleton outer dict just selects that inner dict. -/
def fileColorMap (fname : Str) (palette : Palette) : Except Unit (List (Str × Str)) :=
  let color_disabled := palette.COLOR_BACKGROUND_NORMAL
  let color_focus := palette.COLOR_SELECTION_LIGHT
  let color_pressed := palette.COLOR_SELECTION_NORMAL
  let color_normal := palette.COLOR_FOREGROUND_DARK
  match splitCh '.' fname with
  | [name, ext] =>
    .ok (mkDict
      [(fname, color_normal),
       (name ++ "_disabled.".toList ++ ext, color_disabled),
       (name ++ "_focus.".toList ++ ext, color_focus),
       (name ++ "_pressed.".toList ++ ext, color_pressed)])
  | _ => .error ()

/-- The hardcoded placeholder color of the base svg files (line 81). -/
def baseColor : Str := "#ff0000".toList

/-- Embeds the pure text transformation of `_create_colored_svg`
(lines 74-85): `data.replace('#ff0000', color)`. -/
def svgReplaceColor (data color : Str) : Str :=
  replaceAll baseColor color data

/-- The `heights` dict of `create_images` (lines 154-157), iterated in
insertion order: pixel height mapped to output filename suffix. -/
def heightsList : List (Nat × Str) := [(32, ".png".toList), (64, "@2x.png".toList)]

/-- `base_height = 32` (line 151). -/
def baseHeight : Nat := 32

/-- `svg_fname.split('.')[0]` (line 178): the template's base name. -/
def svgName (fname : Str) : Str :=
  (splitCh '.' fname).headD []

/-- `color_svg_name.replace('.svg', ext)` (line 192): the produced PNG
filename for one state variant at one size. -/
def pngFname (ext color_svg_name : Str) : Str :=
  replaceAll ".svg".toList ext color_svg_name

/-- The `try: rc_list.remove(rc_name) except ValueError: pass` block
(lines 204-207): remove the first occurrence if present, no-op otherwise. -/
def removeIfPresent (l : List Str) (x : Str) : List Str :=
  l.erase x

/-- Mutable state threaded through the loops of `create_images`:
the two counters, the working copy of the reference list, and the
produced PNG filenames (standing in for the files written to `rc_path`). -/
structure PipeState where
  num_png : Nat
  num_ignored : Nat
  rc_list : List Str
  produced : List Str
deriving DecidableEq

/-- The statistics observable at the end of `create_images`
(lines 212-217). -/
structure RunStats where
  num_svg : Nat
  num_png : Nat
  num_ignored : Nat
  rc_list : List Str
  produced : List Str
deriving DecidableEq

/-- The body of the inner `for color_svg_name, color in color_files.items()`
loop (lines 188-207): produce one PNG filename, bump the counter, and at the
base size reconcile the canonical reference path against the working list. -/
def processVariant (height : Nat) (ext rcBase : Str) (st : PipeState)
    (colorSvgName : Str) : PipeState :=
  let png := pngFname ext colorSvgName
  let st := { st with num_png := st.num_png + 1, produced := st.produced ++ [png] }
  if height = baseHeight then
    let rc_name := '/' :: pyJoin rcBase (pyBasename png)
    { st with rc_list := removeIfPresent st.rc_list rc_name }
  else st

/-- The body of the `for svg_fname in svg_fnames` loop (lines 177-210):
skip blacklisted base names, otherwise expand the color map (whose filename
split can raise, modelled as `Except.error`) and process every variant. -/
def processTemplate (height : Nat) (ext rcBase : Str) (palette : Palette)
    (st : PipeState) (fname : Str) : Except Unit PipeState :=
  if svgName fname ∉ IMAGE_BLACKLIST then
    (fileColorMap fname palette).map fun colorFiles =>
      colorFiles.foldl (fun s p => processVariant height ext rcBase s p.1) st
  else
    .ok { st with num_ignored := st.num_ignored + 1 }

/-- Embeds `create_images` (lines 132-217).  Filesystem and rasterizer are
abstracted: `fnames` is the (already `.svg`-filtered) template listing,
`rcBase` is `os.path.basename(rc_path)`, and `rcList` is the reference list
returned by `get_rc_links_from_scss`.  An exception escaping the loops
aborts the whole run (there is no handler in the source), modelled by the
`Except` monad threading through both folds. -/
def createImages (fnames : List Str) (palette : Palette) (rcBase : Str)
    (rcList : List Str) : Except Unit RunStats :=
  (heightsList.foldlM
      (fun st he => fnames.foldlM (processTemplate he.1 he.2 rcBase palette) st)
      ⟨0, 0, rcList, []⟩).map
    fun st =>
      { num_svg := fnames.length, num_png := st.num_png,
        num_ignored := st.num_ignored, rc_list := st.rc_list,
        produced := st.produced }

/-- `TEMPLATE_QRC_HEADER` (lines 27-30) with `resource_prefix`
substituted. -/
def qrcHeader (rp : String) : String :=
  "\n<RCC warning=\"File created programmatically. All changes made in this file will be lost!\">\n  <qresource prefix=\"" ++ rp ++ "\">\n"

/-- `TEMPLATE_QRC_FILE` (line 32) with `fname` substituted. -/
def qrcFileEntry (fname : String) : String :=
  "    <file>rc/" ++ fname ++ "</file>"

/-- `TEMPLATE_QRC_FOOTER` (lines 34-40) with `style_prefix` substituted. -/
def qrcFooter (sp : String) : String :=
  "\n  </qresource>\n  <qresource prefix=\"" ++ sp ++ "\">\n      <file>style.qss</file>\n  </qresource>\n</RCC>\n"

/-- Python `sorted` on filenames: lexicographic (code point) order. -/
def sortedFnames (files : List String) : List String :=
  files.mergeSort (· ≤ ·)

/-- Embeds the pure text generation of `generate_qrc_file` (lines 220-252):
`files` stands for `os.listdir(RC_PATH)`; the result is the `qrc_content`
string written to `QRC_FILEPATH`. -/
def generateQrcContent (files : List String) (rp sp : String) : String :=
  qrcHeader rp
    ++ String.intercalate "\n" ((sortedFnames files).map qrcFileEntry)
    ++ qrcFooter sp

/-- The fixed raster extension searched by the default pattern of
`get_rc_links_from_scss`. -/
def pngTok : Str := ".png".toList

/-- The prefix of `s` that ends at the end of the last occurrence of `pat`
in `s` (meaningful only when `pat` occurs in `s`): the extent consumed by a
greedy `.*` before a final `pat` in a backtracking regex engine. -/
def keepUpToLastPat (pat : Str) : Str → Str
  | [] => []
  | c :: rest =>
    if containsSub pat rest then c :: keepUpToLastPat pat rest
    else if pat.isPrefixOf (c :: rest) then pat
    else []

/-- Operational model of `re.search('(\\/.*\\.png)', line)` followed by
`match[1]` (lines 270-276): the leftmost match of the default pattern.  A
match starts at the first `/` that is followed (strictly later on the line)
by an occurrence of `.png`; the greedy `.*` extends it to the end of the
last such occurrence. -/
def reSearchLine : Str → Option Str
  | [] => none
  | c :: rest =>
    if c = '/' ∧ containsSub pngTok rest then
      some (c :: keepUpToLastPat pngTok rest)
    else
      reSearchLine rest

/-- Embeds `get_rc_links_from_scss` with its default pattern
(lines 255-278): `data` stands for the contents of `STYLES_SCSS_FILEPATH`.
The source splits on newlines, collects at most the first match per line,
and returns `list(set(rc_list))`, modelled up to (unspecified) set order by
`List.dedup`. -/
def getRcLinks (data : Str) : List Str :=
  ((splitCh '\n' data).filterMap reSearchLine).dedup

/-- The per-line matches before de-duplication (`rc_list` of the source just
before the final `list(set(...))`). -/
def getRcLinksRaw (data : Str) : List Str :=
  (splitCh '\n' data).filterMap reSearchLine

/-! ### Basic lemmas about the fuel-driven string rewriting -/

theorem replaceAll_nil (pat rep : Str) : replaceAll pat rep [] = [] := rfl

theorem replaceAllAux_congr (pat rep : Str) :
    ∀ (f₁ f₂ : Nat) (s : Str), s.length ≤ f₁ → s.length ≤ f₂ →
      replaceAllAux pat rep f₁ s = replaceAllAux pat rep f₂ s := by
  intro f₁
  induction f₁ with
  | zero =>
    intro f₂ s h₁ _
    have hs : s = [] := List.eq_nil_of_length_eq_zero (Nat.le_zero.mp h₁)
    subst hs
    cases f₂ <;> rfl
  | succ a ih =>
    intro f₂ s h₁ h₂
    cases s with
    | nil => cases f₂ <;> rfl
    | cons c rest =>
      cases f₂ with
      | zero => simp at h₂
      | succ b =>
        have hra : rest.length ≤ a := by
          simp only [List.length_cons] at h₁; omega
        have hrb : rest.length ≤ b := by
          simp only [List.length_cons] at h₂; omega
        simp only [replaceAllAux]
        by_cases hcond : pat ≠ [] ∧ pat.isPrefixOf (c :: rest)
        · rw [if_pos hcond, if_pos hcond]
          have hpat : 0 < pat.length := List.length_pos.mpr hcond.1
          have hle₁ : ((c :: rest).drop pat.length).length ≤ a := by
            simp only [List.length_drop, List.length_cons]; omega
          have hle₂ : ((c :: rest).drop pat.length).length ≤ b := by
            simp only [List.length_drop, List.length_cons]; omega
          rw [ih b _ hle₁ hle₂]
        · rw [if_neg hcond, if_neg hcond]
          rw [ih b rest hra hrb]

theorem replaceAll_cons_of_pos (pat rep : Str) (c : Char) (rest : Str)
    (hp : pat ≠ []) (hpre : pat.isPrefixOf (c :: rest)) :
    replaceAll pat rep (c :: rest) =
      rep ++ replaceAll pat rep ((c :: rest).drop pat.length) := by
  have hpat : 0 < pat.length := List.length_pos.mpr hp
  unfold replaceAll
  simp only [List.length_cons, replaceAllAux, if_pos (And.intro hp hpre)]
  congr 1
  apply replaceAllAux_congr
  · simp only [List.length_drop, List.length_cons]
    omega
  · exact le_rfl

theorem replaceAll_cons_of_neg (pat rep : Str) (c : Char) (rest : Str)
    (h : ¬(pat ≠ [] ∧ pat.isPrefixOf (c :: rest))) :
    replaceAll pat rep (c :: rest) = c :: replaceAll pat rep rest := by
  unfold replaceAll
  simp only [List.length_cons, replaceAllAux, if_neg h]

theorem replaceAll_of_not_contains (pat rep : Str) :
    ∀ s, containsSub pat s = false → replaceAll pat rep s = s := by
  intro s
  induction s with
  | nil => intro _; rfl
  | cons c rest ih =>
    intro h
    simp only [containsSub, Bool.or_eq_false_iff] at h
    rw [replaceAll_cons_of_neg pat rep c rest (by simp [h.1]), ih h.2]

theorem intercalate_cons_of_ne_nil {α : Type} (sep x : List α)
    (l : List (List α)) (h : l ≠ []) :
    List.intercalate sep (x :: l) = x ++ sep ++ List.intercalate sep l := by
  cases l with
  | nil => exact absurd rfl h
  | cons y t =>
    unfold List.intercalate
    rw [List.intersperse_cons_cons]
    simp [List.flatten_cons, List.append_assoc]

theorem splitOnSubAux_ne_nil (pat : Str) :
    ∀ (fuel : Nat) (s : Str), splitOnSubAux pat fuel s ≠ [] := by
  intro fuel
  induction fuel with
  | zero => intro s; cases s <;> simp [splitOnSubAux]
  | succ a ih =>
    intro s
    cases s with
    | nil => simp [splitOnSubAux]
    | cons c rest =>
      simp only [splitOnSubAux]
      by_cases hcond : pat ≠ [] ∧ pat.isPrefixOf (c :: rest)
      · rw [if_pos hcond]; simp
      · rw [if_neg hcond]
        cases hsp : splitOnSubAux pat a rest with
        | nil => exact absurd hsp (ih rest)
        | cons h t => simp

theorem replaceAllAux_eq_intercalate (pat rep : Str) :
    ∀ (fuel : Nat) (s : Str),
      replaceAllAux pat rep fuel s = List.intercalate rep (splitOnSubAux pat fuel s) := by
  intro fuel
  induction fuel with
  | zero =>
    intro s
    cases s with
    | nil => simp [replaceAllAux, splitOnSubAux, List.intercalate]
    | cons c rest => simp [replaceAllAux, splitOnSubAux, List.intercalate]
  | succ a ih =>
    intro s
    cases s with
    | nil => simp [replaceAllAux, splitOnSubAux, List.intercalate]
    | cons c rest =>
      simp only [replaceAllAux, splitOnSubAux]
      by_cases hcond : pat ≠ [] ∧ pat.isPrefixOf (c :: rest)
      · rw [if_pos hcond, if_pos hcond]
        rw [intercalate_cons_of_ne_nil rep []
          (splitOnSubAux pat a ((c :: rest).drop pat.length))
          (splitOnSubAux_ne_nil pat a _)]
        simp [ih]
      · rw [if_neg hcond, if_neg hcond]
        cases hsp : splitOnSubAux pat a rest with
        | nil => exact absurd hsp (splitOnSubAux_ne_nil pat a rest)
        | cons h t =>
          have hIH := ih rest
          rw [hsp] at hIH
          cases t with
          | nil =>
            have h1 : List.intercalate rep [h] = h := by
              simp [List.intercalate]
            have h2 : List.intercalate rep [c :: h] = c :: h := by
              simp [List.intercalate]
            rw [hIH, h1, h2]
          | cons y t' =>
            rw [intercalate_cons_of_ne_nil rep (c :: h) (y :: t') (by simp)]
            rw [hIH, intercalate_cons_of_ne_nil rep h (y :: t') (by simp)]
            simp [List.cons_append, List.append_assoc]

theorem replaceAll_eq_intercalate (pat rep s : Str) :
    replaceAll pat rep s = List.intercalate rep (splitOnSub pat s) :=
  replaceAllAux_eq_intercalate pat rep s.length s

theorem replaceAll_append_left_of_not_mem (pat rep : Str) (p : Char) (pt : Str)
    (hpat : pat = p :: pt) :
    ∀ (stem rest : Str), p ∉ stem →
      replaceAll pat rep (stem ++ rest) = stem ++ replaceAll pat rep rest := by
  intro stem
  induction stem with
  | nil => intro rest _; simp
  | cons c stem' ih =>
    intro rest hmem
    have hc : c ≠ p := fun h => hmem (h ▸ List.mem_cons_self c stem')
    have hm' : p ∉ stem' := fun h => hmem (List.mem_cons_of_mem c h)
    have hnotpre : ¬(pat ≠ [] ∧ pat.isPrefixOf (c :: (stem' ++ rest))) := by
      rintro ⟨_, hpre⟩
      rw [ List.isPrefixOf_iff_prefix] at hpre
      obtain ⟨t, ht⟩ := hpre
      rw [hpat] at ht
      injection ht with h1 _
      exact hc h1.symm
    rw [List.cons_append, replaceAll_cons_of_neg pat rep c (stem' ++ rest) hnotpre,
      ih rest hm', List.cons_append]

theorem replaceAll_self_append (pat rep rest : Str) (hp : pat ≠ []) :
    replaceAll pat rep (pat ++ rest) = rep ++ replaceAll pat rep rest := by
  obtain ⟨q, qt, rfl⟩ := List.exists_cons_of_ne_nil hp
  have hpre : (q :: qt).isPrefixOf ((q :: qt) ++ rest) :=
    List.isPrefixOf_iff_prefix.mpr (List.prefix_append (q :: qt) rest)
  rw [List.cons_append, replaceAll_cons_of_pos (q :: qt) rep q (qt ++ rest)
    (by simp) (by rw [← List.cons_append]; exact hpre)]
  congr 1
  rw [← List.cons_append, List.drop_left]

theorem replaceAll_stem_pat (pat rep : Str) (p : Char) (pt : Str)
    (hpat : pat = p :: pt) (stem : Str) (hmem : p ∉ stem) :
    replaceAll pat rep (stem ++ pat) = stem ++ rep := by
  rw [replaceAll_append_left_of_not_mem pat rep p pt hpat stem pat hmem]
  have hrr : replaceAll pat rep pat = rep := by
    have h := replaceAll_self_append pat rep [] (by rw [hpat]; simp)
    rw [List.append_nil, replaceAll_nil, List.append_nil] at h
    exact h
  rw [hrr]

/-! ### Lemmas about `splitCh` and Python dict literals -/

theorem splitCh_of_not_mem (sep : Char) :
    ∀ s : Str, sep ∉ s → splitCh sep s = [s] := by
  intro s
  induction s with
  | nil => intro _; rfl
  | cons c rest ih =>
    intro h
    have hc : ¬(c = sep) := fun he => h (he ▸ List.mem_cons_self c rest)
    have hr : sep ∉ rest := fun hm => h (List.mem_cons_of_mem c hm)
    simp only [splitCh, if_neg hc, ih hr]

theorem splitCh_append_sep (sep : Char) (name rest : Str) (h : sep ∉ name) :
    splitCh sep (name ++ sep :: rest) = name :: splitCh sep rest := by
  induction name with
  | nil => simp [splitCh]
  | cons c name' ih =>
    have hc : ¬(c = sep) := fun he => h (he ▸ List.mem_cons_self c name')
    have hn : sep ∉ name' := fun hm => h (List.mem_cons_of_mem c hm)
    rw [List.cons_append]
    simp only [splitCh, if_neg hc, ih hn]

theorem pydictInsert_of_not_mem (d : List (Str × Str)) (k : Str) (v : Str)
    (h : k ∉ d.map Prod.fst) : pydictInsert d k v = d ++ [(k, v)] := by
  simp only [pydictInsert, if_neg h]

theorem mkDict_four (k0 k1 k2 k3 v0 v1 v2 v3 : Str)
    (h01 : k0 ≠ k1) (h02 : k0 ≠ k2) (h03 : k0 ≠ k3)
    (h12 : k1 ≠ k2) (h13 : k1 ≠ k3) (h23 : k2 ≠ k3) :
    mkDict [(k0, v0), (k1, v1), (k2, v2), (k3, v3)] =
      [(k0, v0), (k1, v1), (k2, v2), (k3, v3)] := by
  have e1 : pydictInsert [] k0 v0 = [(k0, v0)] := by
    rw [pydictInsert_of_not_mem [] k0 v0 (by simp)]; simp
  have e2 : pydictInsert [(k0, v0)] k1 v1 = [(k0, v0), (k1, v1)] := by
    rw [pydictInsert_of_not_mem [(k0, v0)] k1 v1 (by simp [Ne.symm h01])]; simp
  have e3 : pydictInsert [(k0, v0), (k1, v1)] k2 v2 = [(k0, v0), (k1, v1), (k2, v2)] := by
    rw [pydictInsert_of_not_mem [(k0, v0), (k1, v1)] k2 v2
      (by simp [Ne.symm h02, Ne.symm h12])]
    simp
  have e4 : pydictInsert [(k0, v0), (k1, v1), (k2, v2)] k3 v3 =
      [(k0, v0), (k1, v1), (k2, v2), (k3, v3)] := by
    rw [pydictInsert_of_not_mem [(k0, v0), (k1, v1), (k2, v2)] k3 v3
      (by simp [Ne.symm h03, Ne.symm h13, Ne.symm h23])]
    simp
  unfold mkDict
  simp only [List.foldl]
  rw [e1, e2, e3, e4]

/-- Two strings made of a common stem, a constant middle and a common tail
differ when the middles differ. -/
theorem key_ne (n e c₁ c₂ : Str) (h : c₁ ≠ c₂) : n ++ (c₁ ++ e) ≠ n ++ (c₂ ++ e) :=
  fun hc => h (List.append_left_injective e (List.append_right_injective n hc))

/-- Characterisation of `_get_file_color_map` on a filename with exactly one
dot: it succeeds and returns the four state entries in source order, keyed
by the state naming convention and valued by the palette assignment of the
source (normal → foreground-dark, disabled → background-normal,
focus → selection-light, pressed → selection-normal). -/
theorem fileColorMap_eq (name ext : Str) (p : Palette)
    (hn : '.' ∉ name) (he : '.' ∉ ext) :
    fileColorMap (name ++ '.' :: ext) p =
      .ok [(name ++ '.' :: ext, p.COLOR_FOREGROUND_DARK),
           (name ++ "_disabled.".toList ++ ext, p.COLOR_BACKGROUND_NORMAL),
           (name ++ "_focus.".toList ++ ext, p.COLOR_SELECTION_LIGHT),
           (name ++ "_pressed.".toList ++ ext, p.COLOR_SELECTION_NORMAL)] := by
  have hsplit : splitCh '.' (name ++ '.' :: ext) = [name, ext] := by
    rw [splitCh_append_sep '.' name ext hn, splitCh_of_not_mem '.' ext he]
  have h01 : name ++ '.' :: ext ≠ name ++ "_disabled.".toList ++ ext := by
    have h := key_ne name ext ['.'] "_disabled.".toList (by decide)
    simpa [List.append_assoc] using h
  have h02 : name ++ '.' :: ext ≠ name ++ "_focus.".toList ++ ext := by
    have h := key_ne name ext ['.'] "_focus.".toList (by decide)
    simpa [List.append_assoc] using h
  have h03 : name ++ '.' :: ext ≠ name ++ "_pressed.".toList ++ ext := by
    have h := key_ne name ext ['.'] "_pressed.".toList (by decide)
    simpa [List.append_assoc] using h
  have h12 : name ++ "_disabled.".toList ++ ext ≠ name ++ "_focus.".toList ++ ext := by
    have h := key_ne name ext "_disabled.".toList "_focus.".toList (by decide)
    simpa [List.append_assoc] using h
  have h13 : name ++ "_disabled.".toList ++ ext ≠ name ++ "_pressed.".toList ++ ext := by
    have h := key_ne name ext "_disabled.".toList "_pressed.".toList (by decide)
    simpa [List.append_assoc] using h
  have h23 : name ++ "_focus.".toList ++ ext ≠ name ++ "_pressed.".toList ++ ext := by
    have h := key_ne name ext "_focus.".toList "_pressed.".toList (by decide)
    simpa [List.append_assoc] using h
  unfold fileColorMap
  rw [hsplit]
  simp only
  rw [mkDict_four _ _ _ _ _ _ _ _ h01 h02 h03 h12 h13 h23]

/-- The four variant keys produced for a one-dot filename are pairwise
distinct. -/
theorem variant_keys_nodup (name ext : Str) :
    ([name ++ '.' :: ext,
      name ++ "_disabled.".toList ++ ext,
      name ++ "_focus.".toList ++ ext,
      name ++ "_pressed.".toList ++ ext] : List Str).Nodup := by
  have h01 : name ++ '.' :: ext ≠ name ++ "_disabled.".toList ++ ext := by
    have h := key_ne name ext ['.'] "_disabled.".toList (by decide)
    simpa [List.append_assoc] using h
  have h02 : name ++ '.' :: ext ≠ name ++ "_focus.".toList ++ ext := by
    have h := key_ne name ext ['.'] "_focus.".toList (by decide)
    simpa [List.append_assoc] using h
  have h03 : name ++ '.' :: ext ≠ name ++ "_pressed.".toList ++ ext := by
    have h := key_ne name ext ['.'] "_pressed.".toList (by decide)
    simpa [List.append_assoc] using h
  have h12 : name ++ "_disabled.".toList ++ ext ≠ name ++ "_focus.".toList ++ ext := by
    have h := key_ne name ext "_disabled.".toList "_focus.".toList (by decide)
    simpa [List.append_assoc] using h
  have h13 : name ++ "_disabled.".toList ++ ext ≠ name ++ "_pressed.".toList ++ ext := by
    have h := key_ne name ext "_disabled.".toList "_pressed.".toList (by decide)
    simpa [List.append_assoc] using h
  have h23 : name ++ "_focus.".toList ++ ext ≠ name ++ "_pressed.".toList ++ ext := by
    have h := key_ne name ext "_focus.".toList "_pressed.".toList (by decide)
    simpa [List.append_assoc] using h
  simp only [List.nodup_cons, List.mem_cons, List.mem_singleton,
    List.not_mem_nil, or_false, not_or, List.nodup_nil, and_true]
  exact ⟨⟨h01, h02, h03⟩, ⟨h12, h13⟩, h23, not_false⟩

/-- A fixed palette used to instantiate theorems with hypotheses. -/
def testPalette : Palette :=
  ⟨"#19232D".toList, "#148CD2".toList, "#1464A0".toList, "#787878".toList⟩

/-- C1: for every template filename with exactly one dot (written
`name ++ '.' :: ext` with neither part containing a dot) and every palette,
`_get_file_color_map` succeeds and returns a mapping of exactly four
entries whose keys are `name.ext`, `name_disabled.ext`, `name_focus.ext`
and `name_pressed.ext`, pairwise distinct. -/
theorem claim_C1 (p : Palette) (name ext : Str) (hn : '.' ∉ name) (he : '.' ∉ ext) :
    ∃ m, fileColorMap (name ++ '.' :: ext) p = .ok m ∧
      m.map Prod.fst =
        [name ++ '.' :: ext,
         name ++ "_disabled.".toList ++ ext,
         name ++ "_focus.".toList ++ ext,
         name ++ "_pressed.".toList ++ ext] ∧
      m.length = 4 ∧ (m.map Prod.fst).Nodup := by
  refine ⟨_, fileColorMap_eq name ext p hn he, ?_, ?_, ?_⟩
  · simp
  · simp
  · simpa using variant_keys_nodup name ext

/-- Witness for C1 at the template `icon.svg` and a concrete palette. -/
theorem claim_C1_witness :
    ('.' ∉ "icon".toList) ∧ ('.' ∉ "svg".toList) ∧
    ∃ m, fileColorMap ("icon".toList ++ '.' :: "svg".toList) testPalette = .ok m ∧
      m.map Prod.fst =
        ["icon".toList ++ '.' :: "svg".toList,
         "icon".toList ++ "_disabled.".toList ++ "svg".toList,
         "icon".toList ++ "_focus.".toList ++ "svg".toList,
         "icon".toList ++ "_pressed.".toList ++ "svg".toList] ∧
      m.length = 4 ∧ (m.map Prod.fst).Nodup :=
  ⟨by decide, by decide,
    claim_C1 testPalette "icon".toList "svg".toList (by decide) (by decide)⟩

/-- C10: for every palette and every template filename with exactly one
dot, the expansion assigns the normal variant the palette's
`COLOR_FOREGROUND_DARK`, the `_disabled` variant `COLOR_BACKGROUND_NORMAL`,
the `_focus` variant `COLOR_SELECTION_LIGHT`, and the `_pressed` variant
`COLOR_SELECTION_NORMAL`. -/
theorem claim_C10 (p : Palette) (name ext : Str) (hn : '.' ∉ name) (he : '.' ∉ ext) :
    fileColorMap (name ++ '.' :: ext) p =
      .ok [(name ++ '.' :: ext, p.COLOR_FOREGROUND_DARK),
           (name ++ "_disabled.".toList ++ ext, p.COLOR_BACKGROUND_NORMAL),
           (name ++ "_focus.".toList ++ ext, p.COLOR_SELECTION_LIGHT),
           (name ++ "_pressed.".toList ++ ext, p.COLOR_SELECTION_NORMAL)] :=
  fileColorMap_eq name ext p hn he

/-- Witness for C10 at the template `icon.svg` and a concrete palette. -/
theorem claim_C10_witness :
    ('.' ∉ "icon".toList) ∧ ('.' ∉ "svg".toList) ∧
    fileColorMap ("icon".toList ++ '.' :: "svg".toList) testPalette =
      .ok [("icon".toList ++ '.' :: "svg".toList, testPalette.COLOR_FOREGROUND_DARK),
           ("icon".toList ++ "_disabled.".toList ++ "svg".toList, testPalette.COLOR_BACKGROUND_NORMAL),
           ("icon".toList ++ "_focus.".toList ++ "svg".toList, testPalette.COLOR_SELECTION_LIGHT),
           ("icon".toList ++ "_pressed.".toList ++ "svg".toList, testPalette.COLOR_SELECTION_NORMAL)] :=
  ⟨by decide, by decide,
    claim_C10 testPalette "icon".toList "svg".toList (by decide) (by decide)⟩

/-- C6: `_create_colored_svg` performs a literal substitution replacing all
occurrences of the fixed placeholder `#ff0000` (first conjunct: the result
is the source split on the placeholder and re-joined with the target
color), and when the placeholder does not occur the result is the source
unchanged and no error is raised (second conjunct). -/
theorem claim_C6 (data color : Str) :
    svgReplaceColor data color = List.intercalate color (splitOnSub baseColor data) ∧
    (containsSub baseColor data = false → svgReplaceColor data color = data) := by
  constructor
  · exact replaceAll_eq_intercalate baseColor color data
  · intro h
    exact replaceAll_of_not_contains baseColor color data h

/-- Witness for C6 on a source containing only the upper-case variant of
the placeholder: the substitution is case-sensitive, so the source comes
back unchanged. -/
theorem claim_C6_witness :
    containsSub baseColor "#FF0000".toList = false ∧
    svgReplaceColor "#FF0000".toList "#123456".toList = "#FF0000".toList :=
  ⟨by decide, (claim_C6 "#FF0000".toList "#123456".toList).2 (by decide)⟩

/-- C7 fails as stated: with the color `#f` (different from the placeholder)
and the source `#ff0000f0000`, one colorization pass yields `#ff0000` — the
replacement re-creates the placeholder across a boundary — so a second pass
with the same color changes the text again. -/
theorem claim_C7_cex :
    "#f".toList ≠ baseColor ∧
    svgReplaceColor (svgReplaceColor "#ff0000f0000".toList "#f".toList) "#f".toList ≠
      svgReplaceColor "#ff0000f0000".toList "#f".toList := by
  exact ⟨by decide, by decide⟩

/-- C7 amended: colorization is idempotent whenever the placeholder does
not occur in the once-colorized text (which `color ≠ placeholder` alone
does not guarantee). -/
theorem claim_C7_amended (data color : Str)
    (h : containsSub baseColor (svgReplaceColor data color) = false) :
    svgReplaceColor (svgReplaceColor data color) color = svgReplaceColor data color :=
  replaceAll_of_not_contains baseColor color (svgReplaceColor data color) h

/-- Witness for the amended C7 on a concrete source and color. -/
theorem claim_C7_witness :
    containsSub baseColor (svgReplaceColor "a#ff0000b".toList "#0000ff".toList) = false ∧
    svgReplaceColor (svgReplaceColor "a#ff0000b".toList "#0000ff".toList) "#0000ff".toList =
      svgReplaceColor "a#ff0000b".toList "#0000ff".toList :=
  ⟨by decide, claim_C7_amended "a#ff0000b".toList "#0000ff".toList (by decide)⟩

/-! ### Lemmas about the pipeline folds -/

/-- Whether a pipeline run completed (no uncaught exception). -/
def isOkE {α : Type} : Except Unit α → Bool
  | .ok _ => true
  | .error _ => false

/-- A filename whose dot-split does not have exactly two parts makes
`_get_file_color_map` raise. -/
theorem fileColorMap_error (f : Str) (p : Palette)
    (hs : (splitCh '.' f).length ≠ 2) : fileColorMap f p = .error () := by
  unfold fileColorMap
  rcases hl : splitCh '.' f with _ | ⟨a, _ | ⟨b, _ | ⟨c, t⟩⟩⟩
  · rfl
  · rfl
  · rw [hl] at hs; simp at hs
  · rfl

/-- A non-blacklisted template whose filename does not split into exactly
two parts makes the loop body raise, whatever the current state. -/
theorem processTemplate_error (hgt : Nat) (e rcB : Str) (p : Palette) (f : Str)
    (hb : svgName f ∉ IMAGE_BLACKLIST) (hs : (splitCh '.' f).length ≠ 2) :
    ∀ st, processTemplate hgt e rcB p st f = .error () := by
  intro st
  unfold processTemplate
  rw [if_pos hb, fileColorMap_error f p hs]
  rfl

/-- An element on which the folded function always raises makes the whole
`foldlM` raise: the `Except` monad aborts the remaining iterations. -/
theorem foldlM_error_of_mem {α : Type} (f : PipeState → α → Except Unit PipeState)
    (l : List α) (x : α) (hx : x ∈ l) (herr : ∀ st, f st x = .error ()) :
    ∀ st, l.foldlM f st = .error () := by
  induction l with
  | nil => exact absurd hx (List.not_mem_nil x)
  | cons y t ih =>
    intro st
    rw [List.foldlM_cons]
    rcases List.mem_cons.mp hx with hxy | hxt
    · rw [← hxy, herr st]
      rfl
    · cases hfy : f st y with
      | error e => rfl
      | ok s => simpa using ih hxt s

/-- The success or failure of one loop-body step does not depend on the
threaded state (only the filename split can raise). -/
theorem processTemplate_isOk_indep (hgt : Nat) (e rcB : Str) (p : Palette)
    (f : Str) (st st' : PipeState) :
    isOkE (processTemplate hgt e rcB p st f) =
      isOkE (processTemplate hgt e rcB p st' f) := by
  unfold processTemplate
  by_cases hb : svgName f ∉ IMAGE_BLACKLIST
  · rw [if_pos hb, if_pos hb]
    cases fileColorMap f p <;> rfl
  · rw [if_neg hb, if_neg hb]
    rfl

/-- Success of a `foldlM` whose steps succeed independently of the state is
itself independent of the initial state. -/
theorem foldlM_isOk_indep {α : Type} (f : PipeState → α → Except Unit PipeState)
    (hf : ∀ x st st', isOkE (f st x) = isOkE (f st' x)) :
    ∀ (l : List α) (st st' : PipeState),
      isOkE (l.foldlM f st) = isOkE (l.foldlM f st') := by
  intro l
  induction l with
  | nil => intro st st'; rfl
  | cons y t ih =>
    intro st st'
    rw [List.foldlM_cons, List.foldlM_cons]
    cases hy : f st y with
    | error e =>
      cases hy' : f st' y with
      | error e' => rfl
      | ok s' =>
        have h := hf y st st'
        rw [hy, hy'] at h
        exact absurd h (by simp [isOkE])
    | ok s =>
      cases hy' : f st' y with
      | error e' =>
        have h := hf y st st'
        rw [hy, hy'] at h
        exact absurd h (by simp [isOkE])
      | ok s' => simpa using ih s s'

/-- C2 fails as stated: the template `a.b.svg` (whose filename does not
split into exactly two parts) aborts the whole run — the result is an
uncaught error, and the sibling template `c.svg`, which on its own is
processed successfully, is never reached. -/
theorem claim_C2_cex :
    createImages ["a.b.svg".toList, "c.svg".toList] testPalette "rc".toList [] =
      .error () ∧
    isOkE (createImages ["c.svg".toList] testPalette "rc".toList []) = true :=
  ⟨rfl, rfl⟩

/-- C2 amended: a template filename that does not split into exactly
(name, extension) raises an uncaught error that aborts the entire run of
`create_images`; no remaining template, variant or size is processed and no
statistics are produced. -/
theorem claim_C2_amended (fnames : List Str) (p : Palette) (rcB : Str)
    (rcl : List Str) (f : Str) (hf : f ∈ fnames)
    (hb : svgName f ∉ IMAGE_BLACKLIST) (hs : (splitCh '.' f).length ≠ 2) :
    createImages fnames p rcB rcl = .error () := by
  unfold createImages
  have hinner : ∀ st,
      fnames.foldlM (processTemplate 32 ".png".toList rcB p) st = .error () :=
    foldlM_error_of_mem _ fnames f hf (processTemplate_error 32 ".png".toList rcB p f hb hs)
  have houter :
      heightsList.foldlM
        (fun st he => fnames.foldlM (processTemplate he.1 he.2 rcB p) st)
        ⟨0, 0, rcl, []⟩ = .error () := by
    apply foldlM_error_of_mem _ heightsList ((32 : Nat), ".png".toList)
      (by simp [heightsList])
    intro st
    exact hinner st
  rw [houter]
  rfl

/-- Witness for the amended C2 on a concrete run. -/
theorem claim_C2_witness :
    ("a.b.svg".toList ∈ ["a.b.svg".toList, "c.svg".toList]) ∧
    (svgName "a.b.svg".toList ∉ IMAGE_BLACKLIST) ∧
    ((splitCh '.' "a.b.svg".toList).length ≠ 2) ∧
    createImages ["a.b.svg".toList, "c.svg".toList] testPalette "rc".toList [] =
      .error () :=
  ⟨by decide, by decide, by decide,
    claim_C2_amended ["a.b.svg".toList, "c.svg".toList] testPalette "rc".toList []
      "a.b.svg".toList (by decide) (by decide) (by decide)⟩

/-- C3 fails in one point: a single blacklisted template does produce zero
output files and leaves the produced counter at zero, but the skipped
counter ends at 2, not 1, because the blacklist test is re-run for each of
the two configured sizes. -/
theorem claim_C3_cex :
    (createImages ["base_palette.svg".toList] testPalette "rc".toList []).map
        RunStats.produced = .ok [] ∧
    (createImages ["base_palette.svg".toList] testPalette "rc".toList []).map
        RunStats.num_png = .ok 0 ∧
    (createImages ["base_palette.svg".toList] testPalette "rc".toList []).map
        RunStats.num_ignored = .ok 2 ∧
    (2 : Nat) ≠ 1 :=
  ⟨rfl, rfl, rfl, by decide⟩

/-- C3 amended: a run on a single blacklisted template produces zero output
files, leaves the produced counter and the reference list untouched, and
increments the skipped counter once per configured size — twice in total
with the two configured sizes. -/
theorem claim_C3_amended (fname : Str) (p : Palette) (rcB : Str) (rcl : List Str)
    (hb : svgName fname ∈ IMAGE_BLACKLIST) :
    createImages [fname] p rcB rcl = .ok ⟨1, 0, 2, rcl, []⟩ := by
  have hstep : ∀ (hgt : Nat) (e : Str) (st : PipeState),
      processTemplate hgt e rcB p st fname =
        .ok { st with num_ignored := st.num_ignored + 1 } := by
    intro hgt e st
    unfold processTemplate
    rw [if_neg (not_not_intro hb)]
  unfold createImages heightsList
  simp only [List.foldlM_cons, List.foldlM_nil, hstep]
  rfl

/-- Witness for the amended C3 at the blacklisted template
`base_palette.svg`. -/
theorem claim_C3_witness :
    (svgName "base_palette.svg".toList ∈ IMAGE_BLACKLIST) ∧
    createImages ["base_palette.svg".toList] testPalette "rc".toList
        ["/rc/x.png".toList] =
      .ok ⟨1, 0, 2, ["/rc/x.png".toList], []⟩ :=
  ⟨by decide,
    claim_C3_amended "base_palette.svg".toList testPalette "rc".toList
      ["/rc/x.png".toList] (by decide)⟩

/-- C5: the reconciliation step of the pipeline.  First conjunct: removing
an absent canonical reference path from the working copy is a no-op (and
never an error).  Second conjunct: at the base size, one variant step
removes exactly the canonical path `/{rcBase}/{producedFilename}` from the
working copy.  Third conjunct: whether the pipeline completes does not
depend on the reference list at all — unmatched references are only
reported in the returned statistics, never raised. -/
theorem claim_C5 :
    (∀ (l : List Str) (x : Str), x ∉ l → removeIfPresent l x = l) ∧
    (∀ (st : PipeState) (e rcB cn : Str),
      (processVariant baseHeight e rcB st cn).rc_list =
        removeIfPresent st.rc_list
          ('/' :: pyJoin rcB (pyBasename (pngFname e cn)))) ∧
    (∀ (fnames : List Str) (p : Palette) (rcB : Str) (rcl rcl' : List Str),
      isOkE (createImages fnames p rcB rcl) =
        isOkE (createImages fnames p rcB rcl')) := by
  refine ⟨?_, ?_, ?_⟩
  · intro l x hx
    exact List.erase_of_not_mem hx
  · intro st e rcB cn
    unfold processVariant
    rw [if_pos rfl]
  · intro fnames p rcB rcl rcl'
    unfold createImages
    have hf : ∀ (he : Nat × Str) (st st' : PipeState),
        isOkE (fnames.foldlM (processTemplate he.1 he.2 rcB p) st) =
          isOkE (fnames.foldlM (processTemplate he.1 he.2 rcB p) st') := by
      intro he st st'
      exact foldlM_isOk_indep (processTemplate he.1 he.2 rcB p)
        (fun x s s' => processTemplate_isOk_indep he.1 he.2 rcB p x s s') fnames st st'
    have h := foldlM_isOk_indep
      (fun st he => fnames.foldlM (processTemplate he.1 he.2 rcB p) st)
      hf heightsList ⟨0, 0, rcl, []⟩ ⟨0, 0, rcl', []⟩
    cases h1 : heightsList.foldlM
        (fun st he => fnames.foldlM (processTemplate he.1 he.2 rcB p) st)
        ⟨0, 0, rcl, []⟩ with
    | error e =>
      cases h2 : heightsList.foldlM
          (fun st he => fnames.foldlM (processTemplate he.1 he.2 rcB p) st)
          ⟨0, 0, rcl', []⟩ with
      | error e' => rfl
      | ok s' =>
        rw [h1, h2] at h
        exact absurd h (by simp [isOkE])
    | ok s =>
      cases h2 : heightsList.foldlM
          (fun st he => fnames.foldlM (processTemplate he.1 he.2 rcB p) st)
          ⟨0, 0, rcl', []⟩ with
      | error e' =>
        rw [h1, h2] at h
        exact absurd h (by simp [isOkE])
      | ok s' => rfl

/-- Witness for C5: an absent reference is skipped without error, and a run
completes identically with and without an unmatched reference. -/
theorem claim_C5_witness :
    removeIfPresent ["/rc/a.png".toList] "/rc/zz.png".toList = ["/rc/a.png".toList] ∧
    (processVariant baseHeight ".png".toList "rc".toList ⟨0, 0, [], []⟩
        "icon.svg".toList).rc_list =
      removeIfPresent []
        ('/' :: pyJoin "rc".toList (pyBasename (pngFname ".png".toList "icon.svg".toList))) ∧
    isOkE (createImages ["icon.svg".toList] testPalette "rc".toList []) =
      isOkE (createImages ["icon.svg".toList] testPalette "rc".toList
        ["/rc/never_produced.png".toList]) :=
  ⟨claim_C5.1 ["/rc/a.png".toList] "/rc/zz.png".toList (by decide),
   claim_C5.2.1 ⟨0, 0, [], []⟩ ".png".toList "rc".toList "icon.svg".toList,
   claim_C5.2.2 ["icon.svg".toList] testPalette "rc".toList []
     ["/rc/never_produced.png".toList]⟩

/-- C4: reference extraction works line by line, each line contributing at
most one token — its first pattern match — (first conjunct bounds the
pre-deduplication matches by the number of lines), the returned collection
is de-duplicated (second conjunct), and on the two-line example with one
reference per line the result is exactly the two-element set of those
references (remaining conjuncts). -/
theorem claim_C4 :
    (∀ data : Str, (getRcLinksRaw data).length ≤ (splitCh '\n' data).length) ∧
    (∀ data : Str, (getRcLinks data).Nodup) ∧
    (getRcLinks ("background: url(/rc/foo.png);\nother: url(/rc/bar.png);").toList).toFinset
      = {"/rc/foo.png".toList, "/rc/bar.png".toList} ∧
    (getRcLinks ("background: url(/rc/foo.png);\nother: url(/rc/bar.png);").toList).length
      = 2 := by
  refine ⟨?_, ?_, ?_, ?_⟩
  · intro data
    exact List.length_filterMap_le _ _
  · intro data
    exact List.nodup_dedup _
  · decide
  · decide

/-- C8: the generated manifest text opens with the header parameterized by
the resource prefix, closes with the footer parameterized by the style
prefix, contains in between exactly one entry line `    <file>rc/{f}</file>`
per listed file — the entry list being a lexicographically sorted
permutation of the directory listing — and the footer declares exactly the
one fixed extra entry for `style.qss`. -/
theorem claim_C8 (files : List String) (rp sp : String) :
    (∃ rest, generateQrcContent files rp sp = qrcHeader rp ++ rest) ∧
    (∃ pre, generateQrcContent files rp sp = pre ++ qrcFooter sp) ∧
    generateQrcContent files rp sp =
      qrcHeader rp ++ String.intercalate "\n" ((sortedFnames files).map qrcFileEntry)
        ++ qrcFooter sp ∧
    ((sortedFnames files).map qrcFileEntry).length = files.length ∧
    (sortedFnames files).Perm files ∧
    List.Pairwise (fun a b : String => a ≤ b) (sortedFnames files) ∧
    qrcFooter sp =
      ("\n  </qresource>\n  <qresource prefix=\"" ++ sp ++ "\">\n")
        ++ "      <file>style.qss</file>" ++ "\n  </qresource>\n</RCC>\n" := by
  refine ⟨?_, ?_, rfl, ?_, ?_, ?_, ?_⟩
  · exact ⟨String.intercalate "\n" ((sortedFnames files).map qrcFileEntry)
      ++ qrcFooter sp, by rw [generateQrcContent, String.append_assoc]⟩
  · exact ⟨qrcHeader rp
      ++ String.intercalate "\n" ((sortedFnames files).map qrcFileEntry), rfl⟩
  · rw [List.length_map, sortedFnames, List.length_mergeSort]
  · exact List.mergeSort_perm files _
  · have htrans : ∀ a b c : String,
        decide (a ≤ b) = true → decide (b ≤ c) = true → decide (a ≤ c) = true := by
      intro a b c hab hbc
      simp only [decide_eq_true_eq] at hab hbc ⊢
      exact le_trans hab hbc
    have htot : ∀ a b : String, (decide (a ≤ b) || decide (b ≤ a)) = true := by
      intro a b
      simp only [Bool.or_eq_true, decide_eq_true_eq]
      exact le_total a b
    have h := List.sorted_mergeSort htrans htot files
    exact h.imp fun hd => by simpa using hd
  · rw [qrcFooter]
    simp only [String.append_assoc]
    congr 1

/-! ### The produced output filenames of `create_images` (for C9) -/

/-- The PNG filenames one template contributes at one size suffix `e`
(lines 177-195): nothing when blacklisted, otherwise one file per state
variant, named by replacing `.svg` with the size suffix. -/
def templateContribution (e : Str) (p : Palette) (f : Str) : List Str :=
  if svgName f ∉ IMAGE_BLACKLIST then
    match fileColorMap f p with
    | .ok cf => cf.map fun kv => pngFname e kv.1
    | .error _ => []
  else []

/-- The four variant stems of one base name: the base itself and the three
state-suffixed forms. -/
def localStems (n : Str) : List Str :=
  [n, n ++ "_disabled".toList, n ++ "_focus".toList, n ++ "_pressed".toList]

/-- All variant stems of a list of base names. -/
def stemsOf (names : List Str) : List Str :=
  names.flatMap localStems

theorem processVariant_produced (hgt : Nat) (e rcB : Str) (st : PipeState)
    (cn : Str) :
    (processVariant hgt e rcB st cn).produced = st.produced ++ [pngFname e cn] := by
  unfold processVariant
  by_cases h : hgt = baseHeight <;> simp [h]

theorem foldl_processVariant_produced (hgt : Nat) (e rcB : Str) :
    ∀ (cf : List (Str × Str)) (st : PipeState),
      (cf.foldl (fun s kv => processVariant hgt e rcB s kv.1) st).produced =
        st.produced ++ cf.map (fun kv => pngFname e kv.1) := by
  intro cf
  induction cf with
  | nil => intro st; simp
  | cons kv t ih =>
    intro st
    rw [List.foldl_cons, ih, processVariant_produced]
    simp [List.append_assoc]

theorem processTemplate_ok_produced (hgt : Nat) (e rcB : Str) (p : Palette)
    (st st' : PipeState) (f : Str)
    (h : processTemplate hgt e rcB p st f = .ok st') :
    st'.produced = st.produced ++ templateContribution e p f := by
  unfold processTemplate at h
  unfold templateContribution
  by_cases hb : svgName f ∉ IMAGE_BLACKLIST
  · rw [if_pos hb] at h
    rw [if_pos hb]
    cases hfc : fileColorMap f p with
    | error u =>
      rw [hfc] at h
      exact absurd h (by simp [Except.map])
    | ok cf =>
      rw [hfc] at h
      have h2 : cf.foldl (fun s kv => processVariant hgt e rcB s kv.1) st = st' := by
        simpa [Except.map] using h
      rw [← h2, foldl_processVariant_produced]
  · rw [if_neg hb] at h
    rw [if_neg hb]
    have h2 : { st with num_ignored := st.num_ignored + 1 } = st' := by
      simpa using h
    rw [← h2]
    simp

theorem foldlM_processTemplate_produced (hgt : Nat) (e rcB : Str) (p : Palette) :
    ∀ (fnames : List Str) (st st' : PipeState),
      fnames.foldlM (processTemplate hgt e rcB p) st = .ok st' →
      st'.produced = st.produced ++ fnames.flatMap (templateContribution e p) := by
  intro fnames
  induction fnames with
  | nil =>
    intro st st' h
    have h2 : st = st' := Except.ok.inj h
    rw [← h2]
    simp
  | cons f t ih =>
    intro st st' h
    rw [List.foldlM_cons] at h
    cases hf : processTemplate hgt e rcB p st f with
    | error u =>
      rw [hf] at h
      exact Except.noConfusion h
    | ok s =>
      rw [hf] at h
      have h2 : t.foldlM (processTemplate hgt e rcB p) s = .ok st' := h
      rw [ih s st' h2, processTemplate_ok_produced hgt e rcB p st s f hf,
        List.flatMap_cons, List.append_assoc]

theorem heightsFold_produced (rcB : Str) (p : Palette) (fnames : List Str) :
    ∀ (hs : List (Nat × Str)) (st st' : PipeState),
      hs.foldlM
          (fun st he => fnames.foldlM (processTemplate he.1 he.2 rcB p) st) st =
        .ok st' →
      st'.produced = st.produced ++
        hs.flatMap (fun he => fnames.flatMap (templateContribution he.2 p)) := by
  intro hs
  induction hs with
  | nil =>
    intro st st' h
    have h2 : st = st' := Except.ok.inj h
    rw [← h2]
    simp
  | cons he t ih =>
    intro st st' h
    rw [List.foldlM_cons] at h
    cases hf : fnames.foldlM (processTemplate he.1 he.2 rcB p) st with
    | error u =>
      rw [hf] at h
      exact Except.noConfusion h
    | ok s =>
      rw [hf] at h
      have h2 : t.foldlM
          (fun st he => fnames.foldlM (processTemplate he.1 he.2 rcB p) st) s =
          .ok st' := h
      rw [ih s st' h2,
        foldlM_processTemplate_produced he.1 he.2 rcB p fnames st s hf,
        List.flatMap_cons, List.append_assoc]

theorem createImages_produced (fnames : List Str) (p : Palette) (rcB : Str)
    (rcl : List Str) (stats : RunStats)
    (h : createImages fnames p rcB rcl = .ok stats) :
    stats.produced =
      heightsList.flatMap (fun he => fnames.flatMap (templateContribution he.2 p)) := by
  unfold createImages at h
  cases hfold : heightsList.foldlM
      (fun st he => fnames.foldlM (processTemplate he.1 he.2 rcB p) st)
      ⟨0, 0, rcl, []⟩ with
  | error u =>
    rw [hfold] at h
    exact absurd h (by simp [Except.map])
  | ok st' =>
    rw [hfold] at h
    have h2 : stats.produced = st'.produced := by
      have h3 := h
      simp only [Except.map] at h3
      rw [← Except.ok.inj h3]
    rw [h2, heightsFold_produced rcB p fnames heightsList ⟨0, 0, rcl, []⟩ st' hfold]
    simp

theorem not_mem_append_const {c : Char} {n k : Str} (h1 : c ∉ n) (h2 : c ∉ k) :
    c ∉ n ++ k := by
  intro h
  rcases List.mem_append.mp h with h | h
  · exact h1 h
  · exact h2 h

theorem pngFname_suffix (e n kd k : Str) (hdot : '.' ∉ n) (hk : '.' ∉ k)
    (hlit : (kd ++ "svg".toList : Str) = k ++ ".svg".toList) :
    pngFname e ((n ++ kd) ++ "svg".toList) = (n ++ k) ++ e := by
  unfold pngFname
  have hshape : (n ++ kd) ++ "svg".toList = (n ++ k) ++ ".svg".toList := by
    rw [List.append_assoc, hlit, ← List.append_assoc]
  rw [hshape]
  exact replaceAll_stem_pat ".svg".toList e '.' "svg".toList rfl (n ++ k)
    (not_mem_append_const hdot hk)

/-- The contribution of a well-formed, non-blacklisted template `n ++ ".svg"`
at size suffix `e`: the four variant stems each extended with `e`. -/
theorem templateContribution_eq (e : Str) (p : Palette) (n : Str)
    (hdot : '.' ∉ n) (hbl : n ∉ IMAGE_BLACKLIST) :
    templateContribution e p (n ++ ".svg".toList) = (localStems n).map (· ++ e) := by
  have hsplit : splitCh '.' (n ++ ".svg".toList) = [n, "svg".toList] := by
    rw [show (n ++ ".svg".toList : Str) = n ++ '.' :: "svg".toList from rfl,
      splitCh_append_sep '.' n _ hdot, splitCh_of_not_mem '.' _ (by decide)]
  have hsvg : svgName (n ++ ".svg".toList) = n := by
    unfold svgName
    rw [hsplit]
    rfl
  have hfc := fileColorMap_eq n "svg".toList p hdot (by decide)
  have q0 : pngFname e (n ++ '.' :: "svg".toList) = n ++ e := by
    unfold pngFname
    exact replaceAll_stem_pat ".svg".toList e '.' "svg".toList rfl n hdot
  have q1 : pngFname e ((n ++ "_disabled.".toList) ++ "svg".toList) =
      (n ++ "_disabled".toList) ++ e :=
    pngFname_suffix e n "_disabled.".toList "_disabled".toList hdot
      (by decide) (by decide)
  have q2 : pngFname e ((n ++ "_focus.".toList) ++ "svg".toList) =
      (n ++ "_focus".toList) ++ e :=
    pngFname_suffix e n "_focus.".toList "_focus".toList hdot
      (by decide) (by decide)
  have q3 : pngFname e ((n ++ "_pressed.".toList) ++ "svg".toList) =
      (n ++ "_pressed".toList) ++ e :=
    pngFname_suffix e n "_pressed.".toList "_pressed".toList hdot
      (by decide) (by decide)
  unfold templateContribution
  rw [if_pos (by rw [hsvg]; exact hbl)]
  rw [show (n ++ ".svg".toList : Str) = n ++ '.' :: "svg".toList from rfl, hfc]
  simp only [localStems, List.map_cons, List.map_nil]
  rw [q0, q1, q2, q3]

/-- The files contributed at one size suffix by a list of well-formed,
non-blacklisted templates: every variant stem extended with the suffix. -/
theorem flatMap_contribution (e : Str) (p : Palette) :
    ∀ (names : List Str), (∀ n ∈ names, '.' ∉ n) →
      (∀ n ∈ names, n ∉ IMAGE_BLACKLIST) →
      (names.map fun n => n ++ ".svg".toList).flatMap (templateContribution e p) =
        (stemsOf names).map (· ++ e) := by
  intro names
  induction names with
  | nil => intro _ _; simp [stemsOf]
  | cons n t ih =>
    intro hdot hbl
    rw [List.map_cons, List.flatMap_cons,
      templateContribution_eq e p n (hdot n (List.mem_cons_self n t))
        (hbl n (List.mem_cons_self n t)),
      ih (fun m hm => hdot m (List.mem_cons_of_mem n hm))
        (fun m hm => hbl m (List.mem_cons_of_mem n hm))]
    unfold stemsOf
    rw [List.flatMap_cons, List.map_append]

/-- C9 fails as stated: the templates `icon.svg` and `icon_disabled.svg` are
pairwise distinct and each contains exactly one dot, yet the run produces
the filename `icon_disabled.png` twice — the disabled variant of the first
template collides with the base variant of the second. -/
theorem claim_C9_cex :
    ((splitCh '.' "icon.svg".toList).length = 2) ∧
    ((splitCh '.' "icon_disabled.svg".toList).length = 2) ∧
    ("icon.svg".toList ≠ "icon_disabled.svg".toList) ∧
    (createImages ["icon.svg".toList, "icon_disabled.svg".toList] testPalette
        "rc".toList []).map (fun st => decide st.produced.Nodup) = .ok false ∧
    (createImages ["icon.svg".toList, "icon_disabled.svg".toList] testPalette
        "rc".toList []).map (fun st => st.produced.count "icon_disabled.png".toList)
      = .ok 2 :=
  ⟨by decide, by decide, by decide, rfl, rfl⟩

/-- C9 amended: the produced output filenames of a run are pairwise
distinct provided additionally that the variant stems derived from the base
names are pairwise distinct across templates and that no stem equals
another stem extended with the high-density infix `@2x` — conditions the
naming scheme alone does not guarantee. -/
theorem claim_C9_amended (p : Palette) (rcB : Str) (rcl : List Str)
    (names : List Str)
    (hdot : ∀ n ∈ names, '.' ∉ n)
    (hbl : ∀ n ∈ names, n ∉ IMAGE_BLACKLIST)
    (hnodup : (stemsOf names).Nodup)
    (h2x : ∀ s₁ ∈ stemsOf names, ∀ s₂ ∈ stemsOf names, s₁ ≠ s₂ ++ "@2x".toList)
    (stats : RunStats)
    (hrun : createImages (names.map fun n => n ++ ".svg".toList) p rcB rcl =
      .ok stats) :
    stats.produced.Nodup := by
  have hprod := createImages_produced _ p rcB rcl stats hrun
  rw [hprod]
  rw [show heightsList = [((32 : Nat), ".png".toList), ((64 : Nat), "@2x.png".toList)]
    from rfl]
  rw [List.flatMap_cons, List.flatMap_cons, List.flatMap_nil, List.append_nil]
  rw [flatMap_contribution _ p names hdot hbl, flatMap_contribution _ p names hdot hbl]
  apply List.Nodup.append
  · exact hnodup.map (List.append_left_injective _)
  · exact hnodup.map (List.append_left_injective _)
  · rw [List.disjoint_left]
    intro a ha hb
    obtain ⟨s₁, hs₁, hae⟩ := List.mem_map.mp ha
    obtain ⟨s₂, hs₂, hbe⟩ := List.mem_map.mp hb
    have heq : s₂ ++ "@2x.png".toList = s₁ ++ ".png".toList := by
      rw [hbe, hae]
    have h2 : (s₂ ++ "@2x".toList) ++ ".png".toList = s₁ ++ ".png".toList := by
      rw [List.append_assoc,
        show ("@2x".toList ++ ".png".toList : Str) = "@2x.png".toList from by decide]
      exact heq
    have h3 : s₁ = s₂ ++ "@2x".toList := (List.append_left_injective _ h2).symm
    exact h2x s₁ hs₁ s₂ hs₂ h3

set_option maxRecDepth 10000 in
/-- Witness for the amended C9 on the two templates `a.svg` and `b.svg`. -/
theorem claim_C9_witness :
    (∀ n ∈ (["a".toList, "b".toList] : List Str), '.' ∉ n) ∧
    (∀ n ∈ (["a".toList, "b".toList] : List Str), n ∉ IMAGE_BLACKLIST) ∧
    (stemsOf ["a".toList, "b".toList]).Nodup ∧
    (∀ s₁ ∈ stemsOf ["a".toList, "b".toList],
      ∀ s₂ ∈ stemsOf ["a".toList, "b".toList], s₁ ≠ s₂ ++ "@2x".toList) ∧
    (RunStats.mk 2 16 0 []
      ["a.png".toList, "a_disabled.png".toList, "a_focus.png".toList,
       "a_pressed.png".toList, "b.png".toList, "b_disabled.png".toList,
       "b_focus.png".toList, "b_pressed.png".toList, "a@2x.png".toList,
       "a_disabled@2x.png".toList, "a_focus@2x.png".toList,
       "a_pressed@2x.png".toList, "b@2x.png".toList, "b_disabled@2x.png".toList,
       "b_focus@2x.png".toList, "b_pressed@2x.png".toList]).produced.Nodup :=
  ⟨by decide, by decide, by decide, by decide,
    claim_C9_amended testPalette "rc".toList [] ["a".toList, "b".toList]
      (by decide) (by decide) (by decide) (by decide) _ rfl⟩
